import Mathlib

/-!
Verification of the `WallpaperAnalyzer` core of ext-nowa-panel
(`src/services/WallpaperAnalyzer.js`), shallowly embedded in Lean 4.

JavaScript numbers are modelled exactly: pixel bytes are naturals,
all derived quantities are rationals, and the single square root
(`Math.sqrt` in `#analyzePixels`) lands in `ℝ` via `Real.sqrt`.
-/

namespace NowaPanel

/-- An `{r, g, b}` byte triple as tracked for the darkest/lightest sample. -/
structure RGB where
  r : ℕ
  g : ℕ
  b : ℕ
deriving DecidableEq, Repr

/-- The closed set of style labels. The JS code uses the strings
`'dark'`, `'light'`, `'translucent-dark'`, `'translucent-light'`;
`'maximized'` is the fifth label of the data model, assigned only by the
caller (`AdaptivePanel.js`), never by the analyzer core. -/
inductive Style where
  | dark
  | light
  | translucentDark
  | translucentLight
  | maximized
deriving DecidableEq, Repr

/-- The statistics record produced by `#analyzePixels`, parametric in the
number type (`ℚ` for exact fields, `ℝ` once `luminanceStd` holds a square
root). -/
structure SampleStatistics (α : Type) where
  meanLuminance : α
  luminanceStd : α
  minLuminosity : α
  maxLuminosity : α
  minRGB : RGB
  maxRGB : RGB
  sampleCount : ℕ
  width : ℕ
  height : ℕ

/-- `#determineStyle(analysis, LUMINANCE_THRESHOLD)`: the classification
step, translated line by line from the source (logging omitted).
JS booleans become `Bool` via `decide`. -/
def determineStyle {α : Type} [LinearOrderedField α]
    (analysis : SampleStatistics α) (LUMINANCE_THRESHOLD : α) : Style :=
  let STD_THRESHOLD : α := 45 / 255
  let meanLuminance := analysis.meanLuminance
  let luminanceStd := analysis.luminanceStd
  let minColor := analysis.minLuminosity
  let maxColor := analysis.maxLuminosity
  let isBgDark : Bool := decide (meanLuminance < LUMINANCE_THRESHOLD)
  let highVariance : Bool := decide (luminanceStd > STD_THRESHOLD)
  let nearBoundary : Bool := decide (meanLuminance < LUMINANCE_THRESHOLD) &&
    decide (meanLuminance + 1.645 * luminanceStd > LUMINANCE_THRESHOLD)
  let range := maxColor - minColor
  let highContrast : Bool := decide (range > 0.5)
  let isBusy : Bool := highVariance || nearBoundary || highContrast
  if isBgDark then
    if isBusy then Style.translucentDark else Style.dark
  else
    if isBusy then Style.translucentLight else Style.light

/-- The classification as the spec's 2×2 decision table states it:
`isDark = meanLuminance < threshold`,
`isBusy = highVariance OR nearBoundary OR highContrast`.
Written from the spec's words, to be compared with `determineStyle`. -/
def classifySpec {α : Type} [LinearOrderedField α]
    (s : SampleStatistics α) (t : α) : Style :=
  let isDark : Prop := s.meanLuminance < t
  let highVariance : Prop := s.luminanceStd > 45 / 255
  let nearBoundary : Prop :=
    s.meanLuminance < t ∧ s.meanLuminance + 1.645 * s.luminanceStd > t
  let highContrast : Prop := s.maxLuminosity - s.minLuminosity > 0.5
  let isBusy : Prop := highVariance ∨ nearBoundary ∨ highContrast
  if isDark then
    if isBusy then Style.translucentDark else Style.dark
  else
    if isBusy then Style.translucentLight else Style.light

/-! ## The sampling loop of `#analyzePixels` -/

/-- The running accumulator of the checkerboard sampling loop. -/
structure Accum where
  totalLuminosity : ℚ
  luminositySquaredSum : ℚ
  minLuminosity : ℚ
  maxLuminosity : ℚ
  sampleCount : ℕ
  minRGB : RGB
  maxRGB : RGB

/-- The loop's initial values: `min = 1`, `max = 0`,
`minRGB = {255,255,255}`, `maxRGB = {0,0,0}`. -/
def initAccum : Accum :=
  { totalLuminosity := 0
    luminositySquaredSum := 0
    minLuminosity := 1
    maxLuminosity := 0
    sampleCount := 0
    minRGB := ⟨255, 255, 255⟩
    maxRGB := ⟨0, 0, 0⟩ }

/-- `0.299 * r + 0.587 * g + 0.114 * b` (the source's luminosity formula). -/
def luminosity (r g b : ℚ) : ℚ := 0.299 * r + 0.587 * g + 0.114 * b

/-- One iteration of the inner loop body at row `y`, column `x`:
read the three bytes at `y * rowstride + x * channels`, normalize by 255,
accumulate sum and sum of squares, update strict min/max with their RGB
triples, bump the counter. -/
def samplePixel (pixels : ℕ → ℕ) (rowstride channels : ℕ) (y x : ℕ)
    (acc : Accum) : Accum :=
  let pixelIndex := y * rowstride + x * channels
  let r : ℚ := (pixels pixelIndex : ℚ) / 255
  let g : ℚ := (pixels (pixelIndex + 1) : ℚ) / 255
  let b : ℚ := (pixels (pixelIndex + 2) : ℚ) / 255
  let lum := luminosity r g b
  let acc1 := { acc with
    totalLuminosity := acc.totalLuminosity + lum
    luminositySquaredSum := acc.luminositySquaredSum + lum * lum }
  let acc2 :=
    if lum < acc1.minLuminosity then
      { acc1 with
        minLuminosity := lum
        minRGB := ⟨(round (r * 255)).toNat, (round (g * 255)).toNat,
          (round (b * 255)).toNat⟩ }
    else acc1
  let acc3 :=
    if lum > acc2.maxLuminosity then
      { acc2 with
        maxLuminosity := lum
        maxRGB := ⟨(round (r * 255)).toNat, (round (g * 255)).toNat,
          (round (b * 255)).toNat⟩ }
    else acc2
  { acc3 with sampleCount := acc3.sampleCount + 1 }

/-- The column phase of row `y`: `0` if `y % 4 == 0`, else `2`. -/
def xOffset (y : ℕ) : ℕ := if y % 4 = 0 then 0 else 2

/-- The `(y, x)` pairs visited by the checkerboard loops, in loop order:
rows `y = 0, 2, 4, …< height`, and within a row the columns
`x = xOffset, xOffset + 4, … < width` — i.e. the `x < width` with
`x % 4 = xOffset`. -/
def samplePoints (width height : ℕ) : List (ℕ × ℕ) :=
  ((List.range height).filter (fun y => y % 2 = 0)).flatMap (fun y =>
    ((List.range width).filter (fun x => x % 4 = xOffset y)).map
      (fun x => (y, x)))

/-- The whole sampling loop: fold the body over the visited points. -/
def analyzeAccum (pixels : ℕ → ℕ) (width height rowstride channels : ℕ) :
    Accum :=
  (samplePoints width height).foldl
    (fun acc p => samplePixel pixels rowstride channels p.1 p.2 acc)
    initAccum

/-- The mean computed by `#analyzePixels`: `totalLuminosity / sampleCount`. -/
def meanQ (pixels : ℕ → ℕ) (width height rowstride channels : ℕ) : ℚ :=
  (analyzeAccum pixels width height rowstride channels).totalLuminosity /
    (analyzeAccum pixels width height rowstride channels).sampleCount

/-- The variance computed by `#analyzePixels`:
`luminositySquaredSum / sampleCount - mean²`. -/
def varianceQ (pixels : ℕ → ℕ) (width height rowstride channels : ℕ) : ℚ :=
  (analyzeAccum pixels width height rowstride channels).luminositySquaredSum /
    (analyzeAccum pixels width height rowstride channels).sampleCount -
  meanQ pixels width height rowstride channels *
    meanQ pixels width height rowstride channels

/-- `#analyzePixels(pixels, width, height, rowstride, channels)`:
run the loop, then `meanLuminance = total / count`,
`luminanceStd = sqrt(max(0, variance))`. -/
noncomputable def analyzePixels (pixels : ℕ → ℕ)
    (width height rowstride channels : ℕ) : SampleStatistics ℝ :=
  let acc := analyzeAccum pixels width height rowstride channels
  { meanLuminance := (meanQ pixels width height rowstride channels : ℝ)
    luminanceStd :=
      Real.sqrt (max 0 (varianceQ pixels width height rowstride channels : ℝ))
    minLuminosity := (acc.minLuminosity : ℝ)
    maxLuminosity := (acc.maxLuminosity : ℝ)
    minRGB := acc.minRGB
    maxRGB := acc.maxRGB
    sampleCount := acc.sampleCount
    width := width
    height := height }

/-! ## Fold projections: what the loop accumulates, as sums over the
visited points -/

/-- The luminosity the loop computes at point `(y, x)`: the bytes at offset
`y * rowstride + x * channels` (and the two following), normalized by 255,
weighted `0.299 / 0.587 / 0.114`. -/
def lumAt (pixels : ℕ → ℕ) (rowstride channels : ℕ) (p : ℕ × ℕ) : ℚ :=
  luminosity ((pixels (p.1 * rowstride + p.2 * channels) : ℚ) / 255)
    ((pixels (p.1 * rowstride + p.2 * channels + 1) : ℚ) / 255)
    ((pixels (p.1 * rowstride + p.2 * channels + 2) : ℚ) / 255)

lemma samplePixel_totalLuminosity (px : ℕ → ℕ) (rs ch y x : ℕ) (acc : Accum) :
    (samplePixel px rs ch y x acc).totalLuminosity =
      acc.totalLuminosity + lumAt px rs ch (y, x) := by
  simp only [samplePixel, lumAt]
  split_ifs <;> rfl

lemma samplePixel_squaredSum (px : ℕ → ℕ) (rs ch y x : ℕ) (acc : Accum) :
    (samplePixel px rs ch y x acc).luminositySquaredSum =
      acc.luminositySquaredSum + lumAt px rs ch (y, x) * lumAt px rs ch (y, x) := by
  simp only [samplePixel, lumAt]
  split_ifs <;> rfl

lemma samplePixel_sampleCount (px : ℕ → ℕ) (rs ch y x : ℕ) (acc : Accum) :
    (samplePixel px rs ch y x acc).sampleCount = acc.sampleCount + 1 := by
  simp only [samplePixel]
  split_ifs <;> rfl

lemma samplePixel_minLuminosity (px : ℕ → ℕ) (rs ch y x : ℕ) (acc : Accum) :
    (samplePixel px rs ch y x acc).minLuminosity =
      if lumAt px rs ch (y, x) < acc.minLuminosity then lumAt px rs ch (y, x)
      else acc.minLuminosity := by
  simp only [samplePixel, lumAt]
  split_ifs <;> rfl

lemma samplePixel_maxLuminosity (px : ℕ → ℕ) (rs ch y x : ℕ) (acc : Accum) :
    (samplePixel px rs ch y x acc).maxLuminosity =
      if lumAt px rs ch (y, x) > acc.maxLuminosity then lumAt px rs ch (y, x)
      else acc.maxLuminosity := by
  simp only [samplePixel, lumAt]
  split_ifs <;> rfl

lemma foldl_samplePixel_totalLuminosity (px : ℕ → ℕ) (rs ch : ℕ)
    (l : List (ℕ × ℕ)) (acc : Accum) :
    (l.foldl (fun a p => samplePixel px rs ch p.1 p.2 a) acc).totalLuminosity
      = acc.totalLuminosity + (l.map (lumAt px rs ch)).sum := by
  induction l generalizing acc with
  | nil => simp
  | cons p l ih =>
    simp only [List.foldl_cons, List.map_cons, List.sum_cons, ih,
      samplePixel_totalLuminosity]
    ring

lemma foldl_samplePixel_squaredSum (px : ℕ → ℕ) (rs ch : ℕ)
    (l : List (ℕ × ℕ)) (acc : Accum) :
    (l.foldl (fun a p => samplePixel px rs ch p.1 p.2 a) acc).luminositySquaredSum
      = acc.luminositySquaredSum +
        (l.map (fun p => lumAt px rs ch p * lumAt px rs ch p)).sum := by
  induction l generalizing acc with
  | nil => simp
  | cons p l ih =>
    simp only [List.foldl_cons, List.map_cons, List.sum_cons, ih,
      samplePixel_squaredSum]
    ring

lemma foldl_samplePixel_sampleCount (px : ℕ → ℕ) (rs ch : ℕ)
    (l : List (ℕ × ℕ)) (acc : Accum) :
    (l.foldl (fun a p => samplePixel px rs ch p.1 p.2 a) acc).sampleCount
      = acc.sampleCount + l.length := by
  induction l generalizing acc with
  | nil => simp
  | cons p l ih =>
    simp only [List.foldl_cons, List.length_cons, ih, samplePixel_sampleCount]
    omega

lemma foldl_samplePixel_minLuminosity (px : ℕ → ℕ) (rs ch : ℕ)
    (l : List (ℕ × ℕ)) (acc : Accum) :
    (l.foldl (fun a p => samplePixel px rs ch p.1 p.2 a) acc).minLuminosity
      = (l.map (lumAt px rs ch)).foldl min acc.minLuminosity := by
  induction l generalizing acc with
  | nil => simp
  | cons p l ih =>
    simp only [List.foldl_cons, List.map_cons, ih, samplePixel_minLuminosity]
    congr 1
    rcases lt_or_le (lumAt px rs ch p) acc.minLuminosity with h | h
    · simp [h, min_eq_right h.le]
    · simp [not_lt.mpr h, min_eq_left h]

lemma foldl_samplePixel_maxLuminosity (px : ℕ → ℕ) (rs ch : ℕ)
    (l : List (ℕ × ℕ)) (acc : Accum) :
    (l.foldl (fun a p => samplePixel px rs ch p.1 p.2 a) acc).maxLuminosity
      = (l.map (lumAt px rs ch)).foldl max acc.maxLuminosity := by
  induction l generalizing acc with
  | nil => simp
  | cons p l ih =>
    simp only [List.foldl_cons, List.map_cons, ih, samplePixel_maxLuminosity]
    congr 1
    rcases lt_or_le acc.maxLuminosity (lumAt px rs ch p) with h | h
    · simp [h, max_eq_right h.le]
    · simp [not_lt.mpr h, max_eq_left h]

/-- Membership in the visited-point list is exactly the claim's sampling
pattern. -/
lemma mem_samplePoints (width height y x : ℕ) :
    (y, x) ∈ samplePoints width height ↔
      y < height ∧ y % 2 = 0 ∧ x < width ∧ x % 4 = xOffset y := by
  simp only [samplePoints, List.mem_flatMap, List.mem_map, List.mem_filter,
    List.mem_range, Prod.mk.injEq, decide_eq_true_eq]
  constructor
  · rintro ⟨y', ⟨hy', hy2⟩, x', ⟨hx', hx4⟩, rfl, rfl⟩
    exact ⟨hy', hy2, hx', hx4⟩
  · rintro ⟨hy, hy2, hx, hx4⟩
    exact ⟨y, ⟨hy, hy2⟩, x, ⟨hx, hx4⟩, rfl, rfl⟩

lemma analyzeAccum_totalLuminosity (px : ℕ → ℕ) (w h rs ch : ℕ) :
    (analyzeAccum px w h rs ch).totalLuminosity =
      ((samplePoints w h).map (lumAt px rs ch)).sum := by
  unfold analyzeAccum
  rw [foldl_samplePixel_totalLuminosity]
  simp [initAccum]

lemma analyzeAccum_squaredSum (px : ℕ → ℕ) (w h rs ch : ℕ) :
    (analyzeAccum px w h rs ch).luminositySquaredSum =
      ((samplePoints w h).map
        (fun p => lumAt px rs ch p * lumAt px rs ch p)).sum := by
  unfold analyzeAccum
  rw [foldl_samplePixel_squaredSum]
  simp [initAccum]

lemma analyzeAccum_sampleCount (px : ℕ → ℕ) (w h rs ch : ℕ) :
    (analyzeAccum px w h rs ch).sampleCount = (samplePoints w h).length := by
  unfold analyzeAccum
  rw [foldl_samplePixel_sampleCount]
  simp [initAccum]

lemma analyzeAccum_minLuminosity (px : ℕ → ℕ) (w h rs ch : ℕ) :
    (analyzeAccum px w h rs ch).minLuminosity =
      ((samplePoints w h).map (lumAt px rs ch)).foldl min 1 := by
  unfold analyzeAccum
  rw [foldl_samplePixel_minLuminosity]
  rfl

lemma analyzeAccum_maxLuminosity (px : ℕ → ℕ) (w h rs ch : ℕ) :
    (analyzeAccum px w h rs ch).maxLuminosity =
      ((samplePoints w h).map (lumAt px rs ch)).foldl max 0 := by
  unfold analyzeAccum
  rw [foldl_samplePixel_maxLuminosity]
  rfl

/-- C2: `#analyzePixels` samples exactly the checkerboard points (rows
`y = 0, 2, 4, … < height` with column phase `0` when `y % 4 = 0`, else `2`;
columns stepping by 4 below `width`), reads the bytes at
`y * rowstride + x * channels`, weighs the normalized channels
`0.299 / 0.587 / 0.114` (see `lumAt`), and returns
`meanLuminance = sum / count` and
`luminanceStd = sqrt(max(0, sumSquares / count − mean²))`. -/
theorem analyzePixels_formula (px : ℕ → ℕ) (w h rs ch : ℕ) :
    (∀ y x, (y, x) ∈ samplePoints w h ↔
      y < h ∧ y % 2 = 0 ∧ x < w ∧ x % 4 = (if y % 4 = 0 then 0 else 2)) ∧
    (analyzePixels px w h rs ch).sampleCount = (samplePoints w h).length ∧
    (analyzePixels px w h rs ch).meanLuminance =
      (((samplePoints w h).map (lumAt px rs ch)).sum : ℝ) /
        ((samplePoints w h).length : ℝ) ∧
    (analyzePixels px w h rs ch).luminanceStd =
      Real.sqrt (max 0
        ((((samplePoints w h).map
            (fun p => lumAt px rs ch p * lumAt px rs ch p)).sum : ℝ) /
            ((samplePoints w h).length : ℝ) -
          (analyzePixels px w h rs ch).meanLuminance ^ 2)) := by
  refine ⟨fun y x => ?_, ?_, ?_, ?_⟩
  · rw [mem_samplePoints]
    rfl
  · simp [analyzePixels, analyzeAccum_sampleCount]
  · simp only [analyzePixels, meanQ, analyzeAccum_totalLuminosity,
      analyzeAccum_sampleCount]
    push_cast
    ring
  · simp only [analyzePixels, varianceQ, meanQ, analyzeAccum_totalLuminosity,
      analyzeAccum_squaredSum, analyzeAccum_sampleCount]
    have hsq : (fun p => lumAt px rs ch p * lumAt px rs ch p) =
        fun p => lumAt px rs ch p ^ 2 := by
      funext p
      ring
    rw [hsq]
    push_cast
    ring_nf

/-! ## Order facts about the running min/max folds -/

lemma foldl_min_le_start (l : List ℚ) (a : ℚ) : l.foldl min a ≤ a := by
  induction l generalizing a with
  | nil => simp
  | cons x l ih => exact (ih (min a x)).trans (min_le_left a x)

lemma foldl_min_le_mem {l : List ℚ} {x : ℚ} (hx : x ∈ l) (a : ℚ) :
    l.foldl min a ≤ x := by
  induction l generalizing a with
  | nil => cases hx
  | cons y l ih =>
    rcases List.mem_cons.mp hx with rfl | hx
    · exact (foldl_min_le_start l (min a x)).trans (min_le_right a x)
    · exact ih hx (min a y)

lemma le_foldl_min {l : List ℚ} {a c : ℚ} (ha : c ≤ a)
    (h : ∀ x ∈ l, c ≤ x) : c ≤ l.foldl min a := by
  induction l generalizing a with
  | nil => exact ha
  | cons x l ih =>
    exact ih (le_min ha (h x (List.mem_cons_self x l))) fun y hy =>
      h y (List.mem_cons_of_mem x hy)

lemma start_le_foldl_max (l : List ℚ) (a : ℚ) : a ≤ l.foldl max a := by
  induction l generalizing a with
  | nil => simp
  | cons x l ih => exact (le_max_left a x).trans (ih (max a x))

lemma mem_le_foldl_max {l : List ℚ} {x : ℚ} (hx : x ∈ l) (a : ℚ) :
    x ≤ l.foldl max a := by
  induction l generalizing a with
  | nil => cases hx
  | cons y l ih =>
    rcases List.mem_cons.mp hx with rfl | hx
    · exact (le_max_right a x).trans (start_le_foldl_max l (max a x))
    · exact ih hx (max a y)

lemma foldl_max_le {l : List ℚ} {a c : ℚ} (ha : a ≤ c)
    (h : ∀ x ∈ l, x ≤ c) : l.foldl max a ≤ c := by
  induction l generalizing a with
  | nil => exact ha
  | cons x l ih =>
    exact ih (max_le ha (h x (List.mem_cons_self x l))) fun y hy =>
      h y (List.mem_cons_of_mem x hy)

/-- With every byte ≤ 255, each sampled luminosity lies in `[0, 1]`
(the weights sum to exactly 1). -/
lemma lumAt_mem_unitInterval {px : ℕ → ℕ} (hpx : ∀ i, px i ≤ 255)
    (rs ch : ℕ) (p : ℕ × ℕ) : 0 ≤ lumAt px rs ch p ∧ lumAt px rs ch p ≤ 1 := by
  unfold lumAt luminosity
  set i := p.1 * rs + p.2 * ch
  have h0 : (0 : ℚ) ≤ (px i : ℚ) := by positivity
  have h1 : (0 : ℚ) ≤ (px (i + 1) : ℚ) := by positivity
  have h2 : (0 : ℚ) ≤ (px (i + 2) : ℚ) := by positivity
  have b0 : (px i : ℚ) ≤ 255 := by exact_mod_cast hpx i
  have b1 : (px (i + 1) : ℚ) ≤ 255 := by exact_mod_cast hpx (i + 1)
  have b2 : (px (i + 2) : ℚ) ≤ 255 := by exact_mod_cast hpx (i + 2)
  constructor
  · positivity
  · have e : (0.299 : ℚ) + 0.587 + 0.114 = 1 := by norm_num
    nlinarith [e]

/-- C10: for `width ≥ 1` and `height ≥ 1` the checkerboard loop visits
pixel `(0, 0)` (row 0 has column phase 0), so `sampleCount ≥ 1` and the
divisions by `sampleCount` in the mean and variance are by a nonzero
count. -/
theorem sampleCount_pos (px : ℕ → ℕ) (w h rs ch : ℕ)
    (hw : 1 ≤ w) (hh : 1 ≤ h) :
    (0, 0) ∈ samplePoints w h ∧
      1 ≤ (analyzePixels px w h rs ch).sampleCount := by
  have hmem : (0, 0) ∈ samplePoints w h := by
    rw [mem_samplePoints]
    refine ⟨hh, rfl, hw, rfl⟩
  refine ⟨hmem, ?_⟩
  have hne : samplePoints w h ≠ [] := List.ne_nil_of_mem hmem
  have : 0 < (samplePoints w h).length := List.length_pos.mpr hne
  simpa [analyzePixels, analyzeAccum_sampleCount] using this

/-- The witness for `sampleCount_pos` at a 1×1 all-black buffer. -/
theorem sampleCount_pos_witness :
    (0, 0) ∈ samplePoints 1 1 ∧
      1 ≤ (analyzePixels (fun _ => 0) 1 1 3 3).sampleCount :=
  sampleCount_pos (fun _ => 0) 1 1 3 3 (by decide) (by decide)

/-- C7: `luminanceStd` is nonnegative, and when every sampled pixel has
the same luminosity `c` (in particular for all-equal pixel bytes) the
clamped variance is exactly 0, so `luminanceStd = 0` exactly. -/
theorem luminanceStd_nonneg_and_const_zero (px : ℕ → ℕ) (w h rs ch : ℕ)
    (c : ℚ) (hcount : 1 ≤ (samplePoints w h).length) :
    0 ≤ (analyzePixels px w h rs ch).luminanceStd ∧
    ((∀ p ∈ samplePoints w h, lumAt px rs ch p = c) →
      (analyzePixels px w h rs ch).luminanceStd = 0) := by
  constructor
  · exact Real.sqrt_nonneg _
  · intro hall
    have hn : ((samplePoints w h).length : ℚ) ≠ 0 := by
      have : 0 < (samplePoints w h).length := hcount
      exact_mod_cast this.ne'
    have hsum : ((samplePoints w h).map (lumAt px rs ch)).sum =
        ((samplePoints w h).length : ℚ) * c := by
      rw [List.sum_eq_card_nsmul _ c ?_, List.length_map, nsmul_eq_mul]
      intro x hx
      obtain ⟨p, hp, rfl⟩ := List.mem_map.mp hx
      exact hall p hp
    have hsq : ((samplePoints w h).map
        (fun p => lumAt px rs ch p * lumAt px rs ch p)).sum =
        ((samplePoints w h).length : ℚ) * (c * c) := by
      rw [List.sum_eq_card_nsmul _ (c * c) ?_, List.length_map, nsmul_eq_mul]
      intro x hx
      obtain ⟨p, hp, rfl⟩ := List.mem_map.mp hx
      rw [hall p hp]
    have hmean : meanQ px w h rs ch = c := by
      unfold meanQ
      rw [analyzeAccum_totalLuminosity, analyzeAccum_sampleCount, hsum]
      field_simp
    have hvar : varianceQ px w h rs ch = 0 := by
      unfold varianceQ
      rw [analyzeAccum_squaredSum, analyzeAccum_sampleCount, hsq, hmean]
      field_simp
    simp [analyzePixels, hvar]

/-- The witness for `luminanceStd_nonneg_and_const_zero`: a 1×1 all-zero
buffer has `luminanceStd = 0`. -/
theorem luminanceStd_nonneg_and_const_zero_witness :
    0 ≤ (analyzePixels (fun _ => 0) 1 1 3 3).luminanceStd ∧
      (analyzePixels (fun _ => 0) 1 1 3 3).luminanceStd = 0 :=
  ⟨(luminanceStd_nonneg_and_const_zero (fun _ => 0) 1 1 3 3 0 (by decide)).1,
   (luminanceStd_nonneg_and_const_zero (fun _ => 0) 1 1 3 3 0 (by decide)).2
     (by
       intro p hp
       have hsp : samplePoints 1 1 = [(0, 0)] := by rfl
       rw [hsp, List.mem_singleton] at hp
       subst hp
       unfold lumAt luminosity
       norm_num)⟩

/-- C6: with every byte ≤ 255 and at least one sample, the reported
`meanLuminance`, `minLuminosity`, `maxLuminosity` all lie in `[0, 1]` and
`minLuminosity ≤ meanLuminance ≤ maxLuminosity`. -/
theorem stats_bounds (px : ℕ → ℕ) (w h rs ch : ℕ)
    (hpx : ∀ i, px i ≤ 255) (hcount : 1 ≤ (samplePoints w h).length) :
    (0 ≤ (analyzePixels px w h rs ch).meanLuminance ∧
      (analyzePixels px w h rs ch).meanLuminance ≤ 1) ∧
    (0 ≤ (analyzePixels px w h rs ch).minLuminosity ∧
      (analyzePixels px w h rs ch).minLuminosity ≤ 1) ∧
    (0 ≤ (analyzePixels px w h rs ch).maxLuminosity ∧
      (analyzePixels px w h rs ch).maxLuminosity ≤ 1) ∧
    (analyzePixels px w h rs ch).minLuminosity ≤
      (analyzePixels px w h rs ch).meanLuminance ∧
    (analyzePixels px w h rs ch).meanLuminance ≤
      (analyzePixels px w h rs ch).maxLuminosity := by
  have hl : ∀ x ∈ (samplePoints w h).map (lumAt px rs ch),
      0 ≤ x ∧ x ≤ 1 := by
    intro x hx
    obtain ⟨p, hp, rfl⟩ := List.mem_map.mp hx
    exact lumAt_mem_unitInterval hpx rs ch p
  set l := (samplePoints w h).map (lumAt px rs ch) with hldef
  have hlen : 0 < (samplePoints w h).length := hcount
  have hlenq : (0 : ℚ) < ((samplePoints w h).length : ℚ) := by exact_mod_cast hlen
  have hmin0 : (0 : ℚ) ≤ l.foldl min 1 :=
    le_foldl_min (by norm_num) fun x hx => (hl x hx).1
  have hmin1 : l.foldl min 1 ≤ 1 := foldl_min_le_start l 1
  have hmax0 : (0 : ℚ) ≤ l.foldl max 0 := start_le_foldl_max l 0
  have hmax1 : l.foldl max 0 ≤ 1 :=
    foldl_max_le (by norm_num) fun x hx => (hl x hx).2
  have hsumlo : ((samplePoints w h).length : ℚ) * l.foldl min 1 ≤ l.sum := by
    have := List.card_nsmul_le_sum l (l.foldl min 1)
      fun x hx => foldl_min_le_mem hx 1
    rwa [nsmul_eq_mul, hldef, List.length_map] at this
  have hsumhi : l.sum ≤ ((samplePoints w h).length : ℚ) * l.foldl max 0 := by
    have := List.sum_le_card_nsmul l (l.foldl max 0)
      fun x hx => mem_le_foldl_max hx 0
    rwa [nsmul_eq_mul, hldef, List.length_map] at this
  have hmeaneq : meanQ px w h rs ch =
      l.sum / ((samplePoints w h).length : ℚ) := by
    unfold meanQ
    rw [analyzeAccum_totalLuminosity, analyzeAccum_sampleCount]
  have hminmean : l.foldl min 1 ≤ meanQ px w h rs ch := by
    rw [hmeaneq, le_div_iff₀ hlenq]
    linarith
  have hmeanmax : meanQ px w h rs ch ≤ l.foldl max 0 := by
    rw [hmeaneq, div_le_iff₀ hlenq]
    linarith
  have hmean0 : (0 : ℚ) ≤ meanQ px w h rs ch := hmin0.trans hminmean
  have hmean1 : meanQ px w h rs ch ≤ 1 := hmeanmax.trans hmax1
  have hminf : (analyzeAccum px w h rs ch).minLuminosity = l.foldl min 1 :=
    analyzeAccum_minLuminosity px w h rs ch
  have hmaxf : (analyzeAccum px w h rs ch).maxLuminosity = l.foldl max 0 :=
    analyzeAccum_maxLuminosity px w h rs ch
  simp only [analyzePixels, hminf, hmaxf]
  refine ⟨⟨?_, ?_⟩, ⟨?_, ?_⟩, ⟨?_, ?_⟩, ?_, ?_⟩
  · exact_mod_cast hmean0
  · exact_mod_cast hmean1
  · exact_mod_cast hmin0
  · exact_mod_cast hmin1
  · exact_mod_cast hmax0
  · exact_mod_cast hmax1
  · exact_mod_cast hminmean
  · exact_mod_cast hmeanmax

lemma determineStyle_table {α : Type} [LinearOrderedField α]
    (s : SampleStatistics α) (t : α) :
    determineStyle s t = classifySpec s t := by
  unfold determineStyle classifySpec
  by_cases h1 : s.meanLuminance < t <;>
    by_cases h2 : s.luminanceStd > (45 : α) / 255 <;>
      by_cases h3 : s.meanLuminance + 1.645 * s.luminanceStd > t <;>
        by_cases h4 : s.maxLuminosity - s.minLuminosity > (0.5 : α) <;>
          simp [h1, h2, h3, h4]

/-- C1: for every `SampleStatistics` record and every `luminanceThreshold`,
`#determineStyle` returns exactly the label of the spec's 2×2 decision
table with `isDark = meanLuminance < threshold` and
`isBusy = highVariance ∨ nearBoundary ∨ highContrast`. -/
theorem determineStyle_eq_decision_table {α : Type} [LinearOrderedField α]
    (s : SampleStatistics α) (t : α) :
    determineStyle s t = classifySpec s t :=
  determineStyle_table s t

/-- C5: decreasing the threshold keeps light-family results in the light
family: if `#determineStyle` at `t1` yields `light` or `translucent-light`
and `t2 < t1`, the result at `t2` is still `light` or `translucent-light`. -/
theorem determineStyle_threshold_monotone {α : Type} [LinearOrderedField α]
    (s : SampleStatistics α) (t1 t2 : α) (ht : t2 < t1)
    (h : determineStyle s t1 = Style.light ∨
      determineStyle s t1 = Style.translucentLight) :
    determineStyle s t2 = Style.light ∨
      determineStyle s t2 = Style.translucentLight := by
  rw [determineStyle_table] at h ⊢
  simp only [classifySpec] at h ⊢
  have hm1 : ¬ s.meanLuminance < t1 := by
    intro hm1
    rcases h with h | h <;> rw [if_pos hm1] at h <;> split_ifs at h
  have hm2 : ¬ s.meanLuminance < t2 := fun hm2 => hm1 (hm2.trans ht)
  rw [if_neg hm2]
  split_ifs
  · exact Or.inr rfl
  · exact Or.inl rfl

/-- The witness for `determineStyle_threshold_monotone`: a uniform white
record is `light` at threshold `1/2` and stays light-family at `1/4`. -/
theorem determineStyle_threshold_monotone_witness :
    (1 : ℚ) / 4 < 1 / 2 ∧
      (determineStyle ⟨1, 0, 1, 1, ⟨255, 255, 255⟩, ⟨255, 255, 255⟩, 1, 1, 1⟩
          ((1 : ℚ) / 4) = Style.light ∨
        determineStyle ⟨1, 0, 1, 1, ⟨255, 255, 255⟩, ⟨255, 255, 255⟩, 1, 1, 1⟩
          ((1 : ℚ) / 4) = Style.translucentLight) :=
  ⟨by norm_num,
    determineStyle_threshold_monotone
      ⟨1, 0, 1, 1, ⟨255, 255, 255⟩, ⟨255, 255, 255⟩, 1, 1, 1⟩
      ((1 : ℚ) / 2) ((1 : ℚ) / 4) (by norm_num)
      (Or.inl (by
        norm_num [determineStyle, Bool.or_eq_true, Bool.and_eq_true,
          decide_eq_true_eq]))⟩

/-- The witness for `stats_bounds` at a 1×1 all-black buffer. -/
theorem stats_bounds_witness :
    (0 ≤ (analyzePixels (fun _ => 0) 1 1 3 3).meanLuminance ∧
      (analyzePixels (fun _ => 0) 1 1 3 3).meanLuminance ≤ 1) ∧
    (0 ≤ (analyzePixels (fun _ => 0) 1 1 3 3).minLuminosity ∧
      (analyzePixels (fun _ => 0) 1 1 3 3).minLuminosity ≤ 1) ∧
    (0 ≤ (analyzePixels (fun _ => 0) 1 1 3 3).maxLuminosity ∧
      (analyzePixels (fun _ => 0) 1 1 3 3).maxLuminosity ≤ 1) ∧
    (analyzePixels (fun _ => 0) 1 1 3 3).minLuminosity ≤
      (analyzePixels (fun _ => 0) 1 1 3 3).meanLuminance ∧
    (analyzePixels (fun _ => 0) 1 1 3 3).meanLuminance ≤
      (analyzePixels (fun _ => 0) 1 1 3 3).maxLuminosity :=
  stats_bounds (fun _ => 0) 1 1 3 3 (fun _ => Nat.zero_le 255) (by decide)

/-! ## The `analyze` entry point -/

/-- A decoded raster image, as `GdkPixbuf` hands it over: dimensions,
row stride (bytes per row), raw byte buffer, alpha flag. -/
structure ImageBuffer where
  width : ℕ
  height : ℕ
  rowstride : ℕ
  pixels : ℕ → ℕ
  hasAlpha : Bool

/-- `channels = hasAlpha ? 4 : 3` (from `#analyzeTopRegion`). -/
def ImageBuffer.channels (img : ImageBuffer) : ℕ := if img.hasAlpha then 4 else 3

/-- The tolerance-zone constant: ignore 4px from each edge. -/
def PADDING : ℕ := 4

/-- The crop rectangle `analyze` hands to `new_subpixbuf`:
`(PADDING, PADDING, max(1, fullWidth - PADDING*2),
max(0, min(panelHeight, fullHeight) - PADDING))`, computed in `ℤ` as in JS
and clamped back to `ℕ` (the `max` keeps both components nonnegative). -/
def cropRect (imageWidth imageHeight panelHeight : ℕ) : ℕ × ℕ × ℕ × ℕ :=
  (PADDING, PADDING,
    (max 1 ((imageWidth : ℤ) - (PADDING : ℤ) * 2)).toNat,
    (max 0 (min (panelHeight : ℤ) (imageHeight : ℤ) - (PADDING : ℤ))).toNat)

/-- Modelled from the spec: image decoding and cropping are an external
collaborator (`GdkPixbuf`), not part of this repository. Per the spec's
error taxonomy, a crop of zero height is `EmptySampleRegion` and a crop
that exceeds the source bounds is a decode-level failure; both surface as
a thrown error, i.e. `none` here. A successful crop shares the parent's
buffer at byte offset `srcY * rowstride + srcX * channels` with the same
row stride. -/
def newSubpixbuf (img : ImageBuffer) (srcX srcY w h : ℕ) :
    Option ImageBuffer :=
  if h = 0 ∨ srcX + w > img.width ∨ srcY + h > img.height then none
  else
    some
      { width := w
        height := h
        rowstride := img.rowstride
        pixels := fun i =>
          img.pixels (srcY * img.rowstride + srcX * img.channels + i)
        hasAlpha := img.hasAlpha }

/-- The value `analyze` returns: a style label, the mean (0.5 on the
fallback path), the full statistics on success, and an error message on
the fallback path. -/
structure StyleResult where
  style : Style
  meanLuminance : ℝ
  stats : Option (SampleStatistics ℝ)
  error : Option String

/-- The catch-branch value: `{ style: 'dark', meanLuminance: 0.5,
error: message }`. -/
def fallbackResult (msg : String) : StyleResult :=
  { style := Style.dark, meanLuminance := 0.5, stats := none,
    error := some msg }

/-- `WallpaperAnalyzer.analyze(wallpaperPath, luminanceThreshold,
panelHeight)`. The external decode step is abstracted as the
`Option ImageBuffer` the decoder produced from the file at
`wallpaperPath` (`none` = decode threw); the `try/catch` of the source
becomes the two `none` branches. -/
noncomputable def analyze (decoded : Option ImageBuffer)
    (luminanceThreshold : ℝ) (panelHeight : ℕ) : StyleResult :=
  match decoded with
  | none => fallbackResult "Failed to load image"
  | some fullPixbuf =>
    match newSubpixbuf fullPixbuf
        (cropRect fullPixbuf.width fullPixbuf.height panelHeight).1
        (cropRect fullPixbuf.width fullPixbuf.height panelHeight).2.1
        (cropRect fullPixbuf.width fullPixbuf.height panelHeight).2.2.1
        (cropRect fullPixbuf.width fullPixbuf.height panelHeight).2.2.2 with
    | none => fallbackResult "Empty sample region"
    | some bgSlice =>
      let analysis := analyzePixels bgSlice.pixels bgSlice.width
        bgSlice.height bgSlice.rowstride bgSlice.channels
      { style := determineStyle analysis luminanceThreshold
        meanLuminance := analysis.meanLuminance
        stats := some analysis
        error := none }

/-- C3: for images of width ≥ 1, height ≥ 1 and `panelHeight ≥ 1`, the
analyzed region starts at `(4, 4)` and measures
`max(1, imageWidth - 2*4)` by `max(0, min(panelHeight, imageHeight) - 4)`. -/
theorem cropRect_spec (w h p : ℕ) (_hw : 1 ≤ w) (_hh : 1 ≤ h) (_hp : 1 ≤ p) :
    (cropRect w h p).1 = 4 ∧
    (cropRect w h p).2.1 = 4 ∧
    ((cropRect w h p).2.2.1 : ℤ) = max 1 ((w : ℤ) - 2 * 4) ∧
    ((cropRect w h p).2.2.2 : ℤ) = max 0 (min (p : ℤ) (h : ℤ) - 4) := by
  refine ⟨rfl, rfl, ?_, ?_⟩
  · simp only [cropRect, PADDING]
    rw [Int.toNat_of_nonneg (le_trans zero_le_one (le_max_left _ _))]
    norm_num
  · simp only [cropRect, PADDING]
    rw [Int.toNat_of_nonneg (le_max_left _ _)]
    norm_num

/-- The witness for `cropRect_spec` at a 100×80 image and panel height 32. -/
theorem cropRect_spec_witness :
    (cropRect 100 80 32).1 = 4 ∧
    (cropRect 100 80 32).2.1 = 4 ∧
    ((cropRect 100 80 32).2.2.1 : ℤ) = max 1 ((100 : ℤ) - 2 * 4) ∧
    ((cropRect 100 80 32).2.2.2 : ℤ) = max 0 (min (32 : ℤ) (80 : ℤ) - 4) :=
  cropRect_spec 100 80 32 (by decide) (by decide) (by decide)

lemma determineStyle_mem_four {α : Type} [LinearOrderedField α]
    (s : SampleStatistics α) (t : α) :
    determineStyle s t = Style.dark ∨ determineStyle s t = Style.light ∨
      determineStyle s t = Style.translucentDark ∨
      determineStyle s t = Style.translucentLight := by
  simp only [determineStyle]
  split_ifs <;> simp

/-- C9: whatever the input, the `style` field of `analyze`'s result is one
of `dark`, `light`, `translucent-dark`, `translucent-light`; the core
never emits `maximized`. -/
theorem analyze_style_closed (d : Option ImageBuffer) (t : ℝ) (p : ℕ) :
    (analyze d t p).style = Style.dark ∨ (analyze d t p).style = Style.light ∨
      (analyze d t p).style = Style.translucentDark ∨
      (analyze d t p).style = Style.translucentLight := by
  rcases d with _ | img
  · exact Or.inl rfl
  · rcases hsub : newSubpixbuf img
        (cropRect img.width img.height p).1
        (cropRect img.width img.height p).2.1
        (cropRect img.width img.height p).2.2.1
        (cropRect img.width img.height p).2.2.2 with _ | slice
    · simp [analyze, hsub, fallbackResult]
    · simp only [analyze, hsub]
      exact determineStyle_mem_four _ t

/-- C4: when decoding fails (`none`), or the cropped strip has zero
height (`min(panelHeight, imageHeight) ≤ PADDING`, e.g. `panelHeight ≤ 4`),
`analyze` returns the fallback `{ style: 'dark', meanLuminance: 0.5,
error: message }` — it neither throws nor produces NaN statistics. -/
theorem analyze_fallback (t : ℝ) (p : ℕ) :
    ((analyze none t p).style = Style.dark ∧
      (analyze none t p).meanLuminance = 0.5 ∧
      (analyze none t p).error.isSome = true) ∧
    ∀ img : ImageBuffer, min p img.height ≤ PADDING →
      (analyze (some img) t p).style = Style.dark ∧
      (analyze (some img) t p).meanLuminance = 0.5 ∧
      (analyze (some img) t p).error.isSome = true := by
  constructor
  · exact ⟨rfl, rfl, rfl⟩
  · intro img hmin
    have hh : (cropRect img.width img.height p).2.2.2 = 0 := by
      simp only [cropRect, PADDING] at *
      omega
    simp [analyze, newSubpixbuf, hh, fallbackResult]

/-- The witness for `analyze_fallback`: decode failure, and a 100×100
image with `panelHeight = 2`, both fall back to `dark`. -/
theorem analyze_fallback_witness :
    (analyze none (0.5 : ℝ) 32).style = Style.dark ∧
      (analyze (some ⟨100, 100, 300, fun _ => 0, false⟩) (0.5 : ℝ) 2).style =
        Style.dark :=
  ⟨(analyze_fallback 0.5 32).1.1,
    ((analyze_fallback 0.5 2).2 ⟨100, 100, 300, fun _ => 0, false⟩
      (by decide)).1⟩

/-- C8: `analyze` is a pure function of the decoded bytes and the
parameters: equal inputs give bit-identical `StyleResult` values. -/
theorem analyze_pure (d1 d2 : Option ImageBuffer) (t1 t2 : ℝ) (p1 p2 : ℕ)
    (hd : d1 = d2) (ht : t1 = t2) (hp : p1 = p2) :
    analyze d1 t1 p1 = analyze d2 t2 p2 := by
  subst hd
  subst ht
  subst hp
  rfl

/-- The witness for `analyze_pure` at a concrete repeated call. -/
theorem analyze_pure_witness :
    analyze none (0.5 : ℝ) 32 = analyze none (0.5 : ℝ) 32 :=
  analyze_pure none none 0.5 0.5 32 32 rfl rfl rfl

end NowaPanel
